import Mathlib

/-!
Verification of the chunked GPU virtual-memory arena manager
(`cumem_functions.cpp` / `cumem_test.cpp`).

The development has two parts:

* Chunk-geometry arithmetic, translated from `allocate_device_memory` in
  `cumem_test.cpp`: size alignment, chunk-size-hint rounding, chunk count
  and per-chunk sizes.

* A trace semantics for the two entry points `create_and_map` and
  `unmap_and_release` from `cumem_functions.cpp`.  Driver calls
  (`cuMemCreate`, `cuMemMap`, `cuMemSetAccess`, `cuMemUnmap`,
  `cuMemRelease`, the context calls and `sched_setaffinity`) are modelled
  by an `Oracle` that fixes the success/failure of each call; each routine
  is translated into a function that returns the ordered list of driver
  calls it issues, each call recorded as an `Event` carrying its arguments
  and its outcome.  The control flow (early `return` on the first failing
  call of a loop, failures of `ensure_context` being swallowed, the
  prefix-sum offset accumulator `allocated_size`) is translated directly
  from the C source.
-/

namespace Cumem

/-! ### Chunk-size arithmetic (from `allocate_device_memory`, cumem_test.cpp) -/

/-- Computes `((x + granularity - 1) / granularity) * granularity`: round `x` up to a
multiple of `granularity` (C integer division on non-negative values). -/
def roundUpTo (x granularity : Nat) : Nat :=
  ((x + granularity - 1) / granularity) * granularity

/-- Computes `mem.alignedSize = ((size + granularity - 1) / granularity) * granularity`
(cumem_test.cpp line 97). -/
def alignedSizeOf (size granularity : Nat) : Nat :=
  roundUpTo size granularity

/-- The constant `CHUNK_SIZE_MB * 1024 * 1024` with `CHUNK_SIZE_MB = 128`
(cumem_test.cpp line 111). -/
def CHUNK_SIZE_BYTES : Nat := 128 * 1024 * 1024

/-- Computes `aligned_chunk_size = ((CHUNK_SIZE_MB*1024*1024 + granularity - 1) /
granularity) * granularity` (cumem_test.cpp line 112). -/
def alignedChunkSize (granularity : Nat) : Nat :=
  roundUpTo CHUNK_SIZE_BYTES granularity

/-- Computes `mem.num_chunks = (mem.alignedSize + aligned_chunk_size - 1) /
aligned_chunk_size` (cumem_test.cpp line 113). -/
def numChunksOf (alignedSize acs : Nat) : Nat :=
  (alignedSize + acs - 1) / acs

/-- Computes `mem.chunk_sizes[i] = (i == mem.num_chunks - 1) ?
(mem.alignedSize - (mem.num_chunks - 1) * aligned_chunk_size) :
aligned_chunk_size` (cumem_test.cpp lines 122-123). -/
def chunkSizeAt (alignedSize acs n i : Nat) : Nat :=
  if i = n - 1 then alignedSize - (n - 1) * acs else acs

/-- The chunk-size array filled by the initialization loop of
`allocate_device_memory` (cumem_test.cpp lines 120-124). -/
def chunkSizesOf (alignedSize acs : Nat) : List Nat :=
  (List.range (numChunksOf alignedSize acs)).map
    (chunkSizeAt alignedSize acs (numChunksOf alignedSize acs))

/-! ### Trace semantics of `create_and_map` / `unmap_and_release`
(cumem_functions.cpp) -/

/-- One driver / OS call issued by the routines, with its arguments and its
outcome (`ok = true` iff the underlying call returned success).  Addresses
and sizes are natural numbers; a physical allocation handle is identified by
its chunk index (`p_memHandle[i]`). -/
inductive Event where
  /-- Call `cuCtxGetCurrent` (cumem_functions.cpp line 21). -/
  | ctxGetCurrent (ok : Bool)
  /-- Call `cuDevicePrimaryCtxRetain(&pctx, device)` (line 31). -/
  | ctxRetain (device : Nat) (ok : Bool)
  /-- Call `cuCtxSetCurrent(pctx)` (line 39). -/
  | ctxSetCurrent (ok : Bool)
  /-- Call `sched_setaffinity(tid, sizeof(mask), &mask)` with the given set of
  CPU indices in the mask (line 74). -/
  | setAffinity (device : Nat) (cpus : List Nat)
  /-- Call `cuMemCreate(p_memHandle[i], size, &prop, 0)` (line 98). -/
  | memCreate (i : Nat) (size : Nat) (ok : Bool)
  /-- Call `cuMemMap(addr, size, 0, *(p_memHandle[i]), 0)` (line 117). -/
  | memMap (addr : Nat) (size : Nat) (i : Nat) (ok : Bool)
  /-- Call `cuMemSetAccess(d_mem, size, &accessDesc, 1)` (line 139). -/
  | setAccess (device : Nat) (addr : Nat) (size : Nat) (ok : Bool)
  /-- Call `cuMemUnmap(addr, size)` (line 168). -/
  | memUnmap (addr : Nat) (size : Nat) (ok : Bool)
  /-- Call `cuMemRelease(*(p_memHandle[i]))` (line 183). -/
  | memRelease (i : Nat) (ok : Bool)
  deriving DecidableEq, Repr

/-- Fixes the outcome of every driver / OS call: per-chunk outcomes for the
four per-chunk calls, and one outcome for each of the context calls and the
access grant.  (`ctxIsNull` models `!pctx` after `cuCtxGetCurrent`.) -/
structure Oracle where
  ctxGetOk : Bool
  ctxIsNull : Bool
  ctxRetainOk : Bool
  ctxSetOk : Bool
  createOk : Nat → Bool
  mapOk : Nat → Bool
  accessOk : Bool
  unmapOk : Nat → Bool
  releaseOk : Nat → Bool

/-- An oracle on which every driver call succeeds. -/
def allOk : Oracle :=
  ⟨true, false, true, true, fun _ => true, fun _ => true, true,
    fun _ => true, fun _ => true⟩

/-- Trace of `ensure_context` (cumem_functions.cpp lines 19-47): get the
current context; on error, log and return.  If no context is current, retain
the device's primary context and make it current, returning early on the
first error.  The function is `void`: its caller cannot observe failure. -/
def ensure_context (o : Oracle) (device : Nat) : List Event :=
  if o.ctxGetOk = false then [.ctxGetCurrent false]
  else if o.ctxIsNull then
    if o.ctxRetainOk = false then [.ctxGetCurrent true, .ctxRetain device false]
    else [.ctxGetCurrent true, .ctxRetain device true, .ctxSetCurrent o.ctxSetOk]
  else [.ctxGetCurrent true]

/-- CPU mask computed by `set_cpu_affinity_for_gpu` (cumem_functions.cpp
lines 54-71): devices `0..3` set CPUs `0..47` (NUMA node 0), all other
devices set CPUs `48..95` (NUMA node 1). -/
def cpuMaskForGpu (device : Nat) : List Nat :=
  if device ≤ 3 then List.range 48
  else (List.range 48).map (fun i => 48 + i)

/-- Trace of `set_cpu_affinity_for_gpu` (cumem_functions.cpp lines 50-78):
one `sched_setaffinity` call on the computed mask.  A failure of the call is
logged and otherwise ignored, so the trace does not branch on it. -/
def set_cpu_affinity_for_gpu (device : Nat) : List Event :=
  [.setAffinity device (cpuMaskForGpu device)]

/-- Shape shared by the four per-chunk loops of the C source: iterate over
the `chunk_sizes` array at index `i`, issue the call built by `mk` from the
chunk index, the chunk size, the accumulated offset `acc` (the C variable
`allocated_size`, advanced only after a successful call) and the call's
outcome, and `return` right after the first failing call.  Returns the trace
and whether the loop ran to completion. -/
def chunkCalls (ok : Nat → Bool) (mk : Nat → Nat → Nat → Bool → Event) :
    List Nat → Nat → Nat → List Event × Bool
  | [], _, _ => ([], true)
  | c :: rest, i, acc =>
    if ok i then
      (mk i c acc true :: (chunkCalls ok mk rest (i + 1) (acc + c)).1,
        (chunkCalls ok mk rest (i + 1) (acc + c)).2)
    else ([mk i c acc false], false)

/-- The `cuMemCreate` loop of `create_and_map` (cumem_functions.cpp lines
97-111).  The offset accumulator is unused by this loop. -/
def createChunks (o : Oracle) (sizes : List Nat) : List Event × Bool :=
  chunkCalls o.createOk (fun i c _ b => .memCreate i c b) sizes 0 0

/-- The `cuMemMap` loop of `create_and_map` (cumem_functions.cpp lines
113-131): chunk `i` is mapped at `d_mem + allocated_size`, where
`allocated_size` is the sum of the sizes of chunks `0..i-1`. -/
def mapChunks (o : Oracle) (dMem : Nat) (sizes : List Nat) :
    List Event × Bool :=
  chunkCalls o.mapOk (fun i c a b => .memMap (dMem + a) c i b) sizes 0 0

/-- The `cuMemUnmap` loop of `unmap_and_release` (cumem_functions.cpp lines
165-179), with the same offset accumulator as the map loop. -/
def unmapChunks (o : Oracle) (dMem : Nat) (sizes : List Nat) :
    List Event × Bool :=
  chunkCalls o.unmapOk (fun _ c a b => .memUnmap (dMem + a) c b) sizes 0 0

/-- The `cuMemRelease` loop of `unmap_and_release` (cumem_functions.cpp
lines 182-193). -/
def releaseChunks (o : Oracle) (sizes : List Nat) : List Event × Bool :=
  chunkCalls o.releaseOk (fun i _ _ b => .memRelease i b) sizes 0 0

/-- Trace of `create_and_map` (cumem_functions.cpp lines 81-151):
`ensure_context`, then `set_cpu_affinity_for_gpu`, then the create loop;
if it completed, the map loop; if that completed, one `cuMemSetAccess` over
`size` bytes at `d_mem`.  Each loop's first failure ends the routine. -/
def create_and_map (o : Oracle) (device size dMem : Nat)
    (sizes : List Nat) : List Event :=
  ensure_context o device
    ++ set_cpu_affinity_for_gpu device
    ++ (if (createChunks o sizes).2 then
          (createChunks o sizes).1
            ++ (if (mapChunks o dMem sizes).2 then
                  (mapChunks o dMem sizes).1
                    ++ [.setAccess device dMem size o.accessOk]
                else (mapChunks o dMem sizes).1)
        else (createChunks o sizes).1)

/-- Trace of `unmap_and_release` (cumem_functions.cpp lines 154-194):
`ensure_context`, then the unmap loop; if it completed, the release loop.
The `size` argument is only printed by the C code, never passed to the
driver. -/
def unmap_and_release (o : Oracle) (device _size dMem : Nat)
    (sizes : List Nat) : List Event :=
  ensure_context o device
    ++ (if (unmapChunks o dMem sizes).2 then
          (unmapChunks o dMem sizes).1 ++ (releaseChunks o sizes).1
        else (unmapChunks o dMem sizes).1)

/-! ### Event classifiers -/

/-- Is this event a `cuMemMap` call? -/
def Event.isMap : Event → Bool
  | .memMap _ _ _ _ => true
  | _ => false

/-- Is this event a `cuMemCreate` call? -/
def Event.isCreate : Event → Bool
  | .memCreate _ _ _ => true
  | _ => false

/-- Is this event a `cuMemSetAccess` call? -/
def Event.isAccess : Event → Bool
  | .setAccess _ _ _ _ => true
  | _ => false

/-- Is this event a `cuMemUnmap` call? -/
def Event.isUnmap : Event → Bool
  | .memUnmap _ _ _ => true
  | _ => false

/-- Is this event a `cuMemRelease` call? -/
def Event.isRelease : Event → Bool
  | .memRelease _ _ => true
  | _ => false

example : alignedSizeOf 1 (2 * 1024 * 1024) = 2 * 1024 * 1024 := by decide
example : numChunksOf (300 * 1024 * 1024) (128 * 1024 * 1024) = 3 := by decide
example : chunkSizesOf (300 * 1024 * 1024) (128 * 1024 * 1024)
    = [128 * 1024 * 1024, 128 * 1024 * 1024, 44 * 1024 * 1024] := by
  decide

/-- Rounding up never decreases the value (for positive granularity). -/
lemma le_roundUpTo (x g : Nat) (hg : 0 < g) : x ≤ roundUpTo x g := by
  unfold roundUpTo
  have hdm := Nat.div_add_mod (x + g - 1) g
  have hlt : (x + g - 1) % g < g := Nat.mod_lt _ hg
  set d := (x + g - 1) / g with hd
  set m := (x + g - 1) % g with hm
  have hcomm : d * g = g * d := Nat.mul_comm d g
  omega

/-- The rounded value is a multiple of the granularity. -/
lemma roundUpTo_mod (x g : Nat) : roundUpTo x g % g = 0 := by
  unfold roundUpTo
  exact Nat.mul_mod_left _ _

/-- For positive `A`, the C expression `(A + acs - 1) / acs` is
`(A - 1) / acs + 1`. -/
lemma numChunksOf_eq_succ (A acs : Nat) (hA : 0 < A) (hacs : 0 < acs) :
    numChunksOf A acs = (A - 1) / acs + 1 := by
  unfold numChunksOf
  have h1 : A + acs - 1 = (A - 1) + acs := by omega
  rw [h1, Nat.add_div_right _ hacs]

/-- The chunk count is positive when the aligned size is. -/
lemma numChunksOf_pos (A acs : Nat) (hA : 0 < A) (hacs : 0 < acs) :
    0 < numChunksOf A acs := by
  rw [numChunksOf_eq_succ A acs hA hacs]; exact Nat.succ_pos _

/-- Bounds characterizing `numChunksOf` as the ceiling of `A / acs`:
all chunks but the last are full, and the chunks cover `A`. -/
lemma numChunks_bounds (A acs : Nat) (hA : 0 < A) (hacs : 0 < acs) :
    (numChunksOf A acs - 1) * acs < A ∧ A ≤ numChunksOf A acs * acs := by
  rw [numChunksOf_eq_succ A acs hA hacs, Nat.add_sub_cancel, Nat.add_mul,
    Nat.one_mul]
  have hdm := Nat.div_add_mod (A - 1) acs
  have hlt : (A - 1) % acs < acs := Nat.mod_lt _ hacs
  set q := (A - 1) / acs
  set r := (A - 1) % acs
  have hcomm : q * acs = acs * q := Nat.mul_comm _ _
  omega

/-- The chunk-size array is `numChunksOf` entries long. -/
lemma chunkSizesOf_length (A acs : Nat) :
    (chunkSizesOf A acs).length = numChunksOf A acs := by
  unfold chunkSizesOf
  simp

/-- The chunk-size array consists of full chunks followed by the remainder
chunk. -/
lemma chunkSizesOf_eq (A acs : Nat) (hA : 0 < A) (hacs : 0 < acs) :
    chunkSizesOf A acs
      = List.replicate (numChunksOf A acs - 1) acs
        ++ [A - (numChunksOf A acs - 1) * acs] := by
  unfold chunkSizesOf
  have hn1 : 0 < numChunksOf A acs := numChunksOf_pos A acs hA hacs
  obtain ⟨m, hm⟩ : ∃ m, numChunksOf A acs = m + 1 :=
    ⟨numChunksOf A acs - 1, by omega⟩
  rw [hm, List.range_succ, List.map_append, Nat.add_sub_cancel]
  congr 1
  · refine List.eq_replicate_iff.mpr ⟨by simp, ?_⟩
    intro b hb
    simp only [List.mem_map, List.mem_range] at hb
    obtain ⟨i, hi, rfl⟩ := hb
    unfold chunkSizeAt
    rw [Nat.add_sub_cancel, if_neg (by omega)]
  · simp [chunkSizeAt]

/-- The chunk sizes sum to the aligned size. -/
lemma chunkSizesOf_sum (A acs : Nat) (hA : 0 < A) (hacs : 0 < acs) :
    (chunkSizesOf A acs).sum = A := by
  rw [chunkSizesOf_eq A acs hA hacs]
  have hb := (numChunks_bounds A acs hA hacs).1
  simp only [List.sum_append, List.sum_replicate, smul_eq_mul,
    List.sum_cons, List.sum_nil]
  omega

/-- Entry `i` of the chunk-size array is `chunkSizeAt`. -/
lemma chunkSizesOf_getD (A acs i : Nat) (hi : i < numChunksOf A acs) :
    (chunkSizesOf A acs).getD i 0 = chunkSizeAt A acs (numChunksOf A acs) i := by
  unfold chunkSizesOf
  rw [List.getD_eq_getElem _ _ (by simpa using hi)]
  simp

/-- The aligned chunk-size hint is positive for positive granularity. -/
lemma alignedChunkSize_pos (g : Nat) (hg : 0 < g) : 0 < alignedChunkSize g :=
  lt_of_lt_of_le (by norm_num [CHUNK_SIZE_BYTES]) (le_roundUpTo _ _ hg)

/-- C1: For every requested size > 0 and granularity > 0, the allocation path
computes `alignedSize = ceil(size/granularity)*granularity` (so
`alignedSize ≥ size` and `alignedSize % granularity = 0`), partitions it into
`numChunks = ceil(alignedSize/chunkSizeHint)` chunks with the chunk-size hint
itself rounded up to the granularity, and the chunk sizes sum to
`alignedSize`. -/
theorem create_partition_geometry (size g : Nat) (hs : 0 < size) (hg : 0 < g) :
    size ≤ alignedSizeOf size g
    ∧ alignedSizeOf size g % g = 0
    ∧ alignedChunkSize g % g = 0
    ∧ (chunkSizesOf (alignedSizeOf size g) (alignedChunkSize g)).length
        = alignedSizeOf size g ⌈/⌉ alignedChunkSize g
    ∧ (chunkSizesOf (alignedSizeOf size g) (alignedChunkSize g)).sum
        = alignedSizeOf size g := by
  have hA : 0 < alignedSizeOf size g := lt_of_lt_of_le hs (le_roundUpTo _ _ hg)
  have hacs : 0 < alignedChunkSize g := alignedChunkSize_pos g hg
  refine ⟨le_roundUpTo _ _ hg, roundUpTo_mod _ _, roundUpTo_mod _ _, ?_,
    chunkSizesOf_sum _ _ hA hacs⟩
  rw [chunkSizesOf_length, Nat.ceilDiv_eq_add_pred_div]
  rfl

/-- Witness for `create_partition_geometry` at `size = 1`,
`granularity = 2*1024*1024` (the spec's 1-byte scenario). -/
theorem create_partition_geometry_witness :
    0 < 1 ∧ 0 < 2 * 1024 * 1024
    ∧ (1 ≤ alignedSizeOf 1 (2 * 1024 * 1024)
       ∧ alignedSizeOf 1 (2 * 1024 * 1024) % (2 * 1024 * 1024) = 0
       ∧ alignedChunkSize (2 * 1024 * 1024) % (2 * 1024 * 1024) = 0
       ∧ (chunkSizesOf (alignedSizeOf 1 (2 * 1024 * 1024))
            (alignedChunkSize (2 * 1024 * 1024))).length
           = alignedSizeOf 1 (2 * 1024 * 1024)
               ⌈/⌉ alignedChunkSize (2 * 1024 * 1024)
       ∧ (chunkSizesOf (alignedSizeOf 1 (2 * 1024 * 1024))
            (alignedChunkSize (2 * 1024 * 1024))).sum
           = alignedSizeOf 1 (2 * 1024 * 1024)) :=
  ⟨by decide, by decide,
    create_partition_geometry 1 (2 * 1024 * 1024) (by decide) (by decide)⟩

/-- C7: For every positive `alignedSize` and positive granularity-aligned
chunk-size hint with `numChunks = ceil(alignedSize/hint)`, every chunk except
the last has size exactly the hint, and the last chunk's size is
`alignedSize - (numChunks-1)*hint`, always `> 0` and `≤ hint`. -/
theorem last_chunk_size (A acs g : Nat) (hA : 0 < A) (hacs : 0 < acs)
    (_hal : acs % g = 0) :
    (∀ i, i < numChunksOf A acs - 1 → (chunkSizesOf A acs).getD i 0 = acs)
    ∧ (chunkSizesOf A acs).getD (numChunksOf A acs - 1) 0
        = A - (numChunksOf A acs - 1) * acs
    ∧ 0 < A - (numChunksOf A acs - 1) * acs
    ∧ A - (numChunksOf A acs - 1) * acs ≤ acs := by
  have hn1 : 0 < numChunksOf A acs := numChunksOf_pos A acs hA hacs
  have hb := numChunks_bounds A acs hA hacs
  obtain ⟨m, hm⟩ : ∃ m, numChunksOf A acs = m + 1 :=
    ⟨numChunksOf A acs - 1, by omega⟩
  have hexp : numChunksOf A acs * acs = (numChunksOf A acs - 1) * acs + acs := by
    rw [hm, Nat.add_sub_cancel, Nat.add_mul, Nat.one_mul]
  refine ⟨?_, ?_, by omega, by omega⟩
  · intro i hi
    rw [chunkSizesOf_getD A acs i (by omega)]
    unfold chunkSizeAt
    rw [if_neg (by omega)]
  · rw [chunkSizesOf_getD A acs _ (by omega)]
    unfold chunkSizeAt
    rw [if_pos rfl]

/-- Witness for `last_chunk_size` at `A = 10`, `acs = 4`, `g = 2`
(chunks `[4, 4, 2]`). -/
theorem last_chunk_size_witness :
    0 < 10 ∧ 0 < 4 ∧ 4 % 2 = 0
    ∧ ((∀ i, i < numChunksOf 10 4 - 1 → (chunkSizesOf 10 4).getD i 0 = 4)
       ∧ (chunkSizesOf 10 4).getD (numChunksOf 10 4 - 1) 0
           = 10 - (numChunksOf 10 4 - 1) * 4
       ∧ 0 < 10 - (numChunksOf 10 4 - 1) * 4
       ∧ 10 - (numChunksOf 10 4 - 1) * 4 ≤ 4) :=
  ⟨by decide, by decide, by decide,
    last_chunk_size 10 4 2 (by decide) (by decide) (by decide)⟩


example :
    create_and_map allOk 0 10 100 [4, 6]
      = [.ctxGetCurrent true, .setAffinity 0 (cpuMaskForGpu 0),
         .memCreate 0 4 true, .memCreate 1 6 true,
         .memMap 100 4 0 true, .memMap 104 6 1 true,
         .setAccess 0 100 10 true] := by
  decide

example :
    unmap_and_release allOk 0 10 100 [4, 6]
      = [.ctxGetCurrent true, .memUnmap 100 4 true, .memUnmap 104 6 true,
         .memRelease 0 true, .memRelease 1 true] := by
  decide

/-! ### Generic facts about the per-chunk loops -/

/-- The loop runs to completion iff every call on the indices it visits
succeeds. -/
lemma chunkCalls_snd_true_iff (ok : Nat → Bool)
    (mk : Nat → Nat → Nat → Bool → Event) (sizes : List Nat) :
    ∀ i acc, (chunkCalls ok mk sizes i acc).2 = true
      ↔ ∀ j, j < sizes.length → ok (i + j) = true := by
  induction sizes with
  | nil => intro i acc; simp [chunkCalls]
  | cons c rest ih =>
    intro i acc
    by_cases h : ok i = true
    · simp only [chunkCalls]
      rw [if_pos h]
      rw [show (mk i c acc true :: (chunkCalls ok mk rest (i + 1) (acc + c)).1,
            (chunkCalls ok mk rest (i + 1) (acc + c)).2).2
          = (chunkCalls ok mk rest (i + 1) (acc + c)).2 from rfl]
      rw [ih (i + 1) (acc + c)]
      constructor
      · intro hall j hj
        cases j with
        | zero => simpa using h
        | succ j' =>
          have hj' : j' < rest.length := by simpa using hj
          have := hall j' hj'
          have heq : i + 1 + j' = i + (j' + 1) := by omega
          rwa [heq] at this
      · intro hall j hj
        have heq : i + 1 + j = i + (j + 1) := by omega
        rw [heq]
        exact hall (j + 1) (by simpa using hj)
    · simp only [chunkCalls]
      rw [if_neg h]
      simp only [List.length_cons]
      constructor
      · intro hfalse; exact absurd hfalse (by simp)
      · intro hall
        exact absurd (by simpa using hall 0 (Nat.succ_pos _)) h

/-- Peeling the head off a `map` over `List.range (n+1)`. -/
lemma range_succ_map_eq (f g : Nat → Event) (n : Nat)
    (hg : ∀ j, j < n → g j = f (j + 1)) :
    (List.range (n + 1)).map f = f 0 :: (List.range n).map g := by
  rw [List.range_succ_eq_map, List.map_cons, List.map_map]
  congr 1
  apply List.map_congr_left
  intro j hj
  simp only [Function.comp_apply]
  exact (hg j (List.mem_range.mp hj)).symm

/-- When every visited call succeeds, the loop issues exactly one successful
call per chunk, in index order, with the prefix-sum offsets. -/
lemma chunkCalls_fst_all (ok : Nat → Bool)
    (mk : Nat → Nat → Nat → Bool → Event) (sizes : List Nat) :
    ∀ i acc, (∀ j, j < sizes.length → ok (i + j) = true) →
      (chunkCalls ok mk sizes i acc).1
        = (List.range sizes.length).map
            (fun j => mk (i + j) (sizes.getD j 0)
              (acc + (sizes.take j).sum) true) := by
  induction sizes with
  | nil => intro i acc _; simp [chunkCalls]
  | cons c rest ih =>
    intro i acc hall
    have h0 : ok i = true := by simpa using hall 0 (Nat.succ_pos _)
    simp only [chunkCalls]
    rw [if_pos h0]
    rw [show (mk i c acc true :: (chunkCalls ok mk rest (i + 1) (acc + c)).1,
          (chunkCalls ok mk rest (i + 1) (acc + c)).2).1
        = mk i c acc true :: (chunkCalls ok mk rest (i + 1) (acc + c)).1
        from rfl]
    rw [ih (i + 1) (acc + c) (fun j hj => by
      have heq : i + 1 + j = i + (j + 1) := by omega
      rw [heq]; exact hall (j + 1) (by simpa using hj))]
    rw [show (c :: rest).length = rest.length + 1 from rfl,
      range_succ_map_eq _
        (fun j => mk (i + 1 + j) (rest.getD j 0)
          ((acc + c) + (rest.take j).sum) true)
        rest.length
        (fun j _hj => by
          simp only [List.getD_cons_succ, List.take_succ_cons, List.sum_cons]
          rw [(by omega : i + 1 + j = i + (j + 1)), Nat.add_assoc])]
    rfl

/-- When the calls at offsets `0..k-1` succeed and the call at offset `k`
fails (with `k` within the list), the loop issues the `k` successful calls,
then the failing call, and reports failure. -/
lemma chunkCalls_fail (ok : Nat → Bool)
    (mk : Nat → Nat → Nat → Bool → Event) (sizes : List Nat) :
    ∀ i acc k, (∀ j, j < k → ok (i + j) = true) → ok (i + k) = false →
      k < sizes.length →
      chunkCalls ok mk sizes i acc
        = ((List.range k).map
            (fun j => mk (i + j) (sizes.getD j 0)
              (acc + (sizes.take j).sum) true)
           ++ [mk (i + k) (sizes.getD k 0) (acc + (sizes.take k).sum) false],
           false) := by
  induction sizes with
  | nil => intro i acc k _ _ hk; simp at hk
  | cons c rest ih =>
    intro i acc k hok hf hk
    cases k with
    | zero =>
      have h0 : ok i = false := by simpa using hf
      simp only [chunkCalls]
      rw [if_neg (by simp [h0])]
      simp
    | succ k' =>
      have h0 : ok i = true := by simpa using hok 0 (Nat.succ_pos _)
      simp only [chunkCalls]
      rw [if_pos h0]
      rw [ih (i + 1) (acc + c) k'
        (fun j hj => by
          rw [(by omega : i + 1 + j = i + (j + 1))]
          exact hok (j + 1) (by omega))
        (by rw [(by omega : i + 1 + k' = i + (k' + 1))]; exact hf)
        (by simpa using hk)]
      rw [show (mk (i + (k' + 1)) ((c :: rest).getD (k' + 1) 0)
            (acc + ((c :: rest).take (k' + 1)).sum) false)
          = mk (i + 1 + k') (rest.getD k' 0)
            ((acc + c) + (rest.take k').sum) false from by
        simp only [List.getD_cons_succ, List.take_succ_cons, List.sum_cons]
        rw [(by omega : i + (k' + 1) = i + 1 + k'), ← Nat.add_assoc]]
      rw [range_succ_map_eq _
        (fun j => mk (i + 1 + j) (rest.getD j 0)
          ((acc + c) + (rest.take j).sum) true)
        k'
        (fun j _hj => by
          simp only [List.getD_cons_succ, List.take_succ_cons, List.sum_cons]
          rw [(by omega : i + 1 + j = i + (j + 1)), Nat.add_assoc])]
      rfl

/-- Whatever the outcomes, the loop's trace is the calls for chunk offsets
`0..m-1` for some `m` within the list, in index order, with the prefix-sum
offsets and the oracle's outcome on each. -/
lemma chunkCalls_shape (ok : Nat → Bool)
    (mk : Nat → Nat → Nat → Bool → Event) (sizes : List Nat) :
    ∀ i acc, ∃ m, m ≤ sizes.length ∧
      (chunkCalls ok mk sizes i acc).1
        = (List.range m).map
            (fun j => mk (i + j) (sizes.getD j 0)
              (acc + (sizes.take j).sum) (ok (i + j))) := by
  induction sizes with
  | nil => intro i acc; exact ⟨0, by simp, by simp [chunkCalls]⟩
  | cons c rest ih =>
    intro i acc
    by_cases h : ok i = true
    · obtain ⟨m, hm, hrest⟩ := ih (i + 1) (acc + c)
      refine ⟨m + 1, by simpa using Nat.succ_le_succ hm, ?_⟩
      simp only [chunkCalls]
      rw [if_pos h]
      rw [show (mk i c acc true :: (chunkCalls ok mk rest (i + 1) (acc + c)).1,
            (chunkCalls ok mk rest (i + 1) (acc + c)).2).1
          = mk i c acc true :: (chunkCalls ok mk rest (i + 1) (acc + c)).1
          from rfl]
      rw [hrest]
      rw [range_succ_map_eq _
        (fun j => mk (i + 1 + j) (rest.getD j 0)
          ((acc + c) + (rest.take j).sum) (ok (i + 1 + j)))
        m
        (fun j _hj => by
          simp only [List.getD_cons_succ, List.take_succ_cons, List.sum_cons]
          rw [(by omega : i + 1 + j = i + (j + 1)), Nat.add_assoc])]
      congr 1
      simp [h]
    · refine ⟨1, by simp, ?_⟩
      simp only [chunkCalls]
      rw [if_neg h]
      rw [show List.range 1 = [0] from rfl]
      have h0 : ok i = false := by
        cases hok : ok i with
        | false => rfl
        | true => exact absurd hok h
      simp [h0]

/-- Every event issued by the loop is one of its own calls. -/
lemma chunkCalls_mem (ok : Nat → Bool)
    (mk : Nat → Nat → Nat → Bool → Event) (sizes : List Nat) :
    ∀ i acc e, e ∈ (chunkCalls ok mk sizes i acc).1 →
      ∃ j c a b, e = mk j c a b := by
  induction sizes with
  | nil => intro i acc e he; simp [chunkCalls] at he
  | cons c rest ih =>
    intro i acc e he
    by_cases h : ok i = true
    · simp only [chunkCalls] at he
      rw [if_pos h] at he
      rcases List.mem_cons.mp he with rfl | hmem
      · exact ⟨i, c, acc, true, rfl⟩
      · exact ih _ _ _ hmem
    · simp only [chunkCalls] at he
      rw [if_neg h] at he
      simp only [List.mem_singleton] at he
      exact ⟨i, c, acc, false, he⟩


/-! ### The individual loops -/

/-- The create loop completes iff `cuMemCreate` succeeds on every chunk. -/
lemma createChunks_snd_iff (o : Oracle) (sizes : List Nat) :
    (createChunks o sizes).2 = true
      ↔ ∀ j, j < sizes.length → o.createOk j = true := by
  unfold createChunks
  rw [chunkCalls_snd_true_iff]
  simp

/-- The map loop completes iff `cuMemMap` succeeds on every chunk. -/
lemma mapChunks_snd_iff (o : Oracle) (dMem : Nat) (sizes : List Nat) :
    (mapChunks o dMem sizes).2 = true
      ↔ ∀ j, j < sizes.length → o.mapOk j = true := by
  unfold mapChunks
  rw [chunkCalls_snd_true_iff]
  simp

/-- The unmap loop completes iff `cuMemUnmap` succeeds on every chunk. -/
lemma unmapChunks_snd_iff (o : Oracle) (dMem : Nat) (sizes : List Nat) :
    (unmapChunks o dMem sizes).2 = true
      ↔ ∀ j, j < sizes.length → o.unmapOk j = true := by
  unfold unmapChunks
  rw [chunkCalls_snd_true_iff]
  simp

/-- Trace of the create loop when every `cuMemCreate` succeeds. -/
lemma createChunks_all (o : Oracle) (sizes : List Nat)
    (h : ∀ j, j < sizes.length → o.createOk j = true) :
    (createChunks o sizes).1
      = (List.range sizes.length).map
          (fun j => Event.memCreate j (sizes.getD j 0) true) := by
  unfold createChunks
  rw [chunkCalls_fst_all _ _ _ 0 0 (fun j hj => by simpa using h j hj)]
  simp

/-- Trace of the map loop when every `cuMemMap` succeeds: chunk `j` is
mapped at `dMem` plus the sum of the sizes of chunks `0..j-1`. -/
lemma mapChunks_all (o : Oracle) (dMem : Nat) (sizes : List Nat)
    (h : ∀ j, j < sizes.length → o.mapOk j = true) :
    (mapChunks o dMem sizes).1
      = (List.range sizes.length).map
          (fun j => Event.memMap (dMem + (sizes.take j).sum)
            (sizes.getD j 0) j true) := by
  unfold mapChunks
  rw [chunkCalls_fst_all _ _ _ 0 0 (fun j hj => by simpa using h j hj)]
  simp

/-- Trace of the unmap loop when every `cuMemUnmap` succeeds. -/
lemma unmapChunks_all (o : Oracle) (dMem : Nat) (sizes : List Nat)
    (h : ∀ j, j < sizes.length → o.unmapOk j = true) :
    (unmapChunks o dMem sizes).1
      = (List.range sizes.length).map
          (fun j => Event.memUnmap (dMem + (sizes.take j).sum)
            (sizes.getD j 0) true) := by
  unfold unmapChunks
  rw [chunkCalls_fst_all _ _ _ 0 0 (fun j hj => by simpa using h j hj)]
  simp

/-- Trace of the create loop when `cuMemCreate` fails first at chunk `k`. -/
lemma createChunks_fail (o : Oracle) (sizes : List Nat) (k : Nat)
    (hok : ∀ j, j < k → o.createOk j = true) (hf : o.createOk k = false)
    (hk : k < sizes.length) :
    createChunks o sizes
      = ((List.range k).map (fun j => Event.memCreate j (sizes.getD j 0) true)
          ++ [Event.memCreate k (sizes.getD k 0) false], false) := by
  unfold createChunks
  rw [chunkCalls_fail _ _ _ 0 0 k (fun j hj => by simpa using hok j hj)
    (by simpa using hf) hk]
  simp

/-- Trace of the map loop when `cuMemMap` fails first at chunk `k`. -/
lemma mapChunks_fail (o : Oracle) (dMem : Nat) (sizes : List Nat) (k : Nat)
    (hok : ∀ j, j < k → o.mapOk j = true) (hf : o.mapOk k = false)
    (hk : k < sizes.length) :
    mapChunks o dMem sizes
      = ((List.range k).map
          (fun j => Event.memMap (dMem + (sizes.take j).sum)
            (sizes.getD j 0) j true)
         ++ [Event.memMap (dMem + (sizes.take k).sum)
              (sizes.getD k 0) k false], false) := by
  unfold mapChunks
  rw [chunkCalls_fail _ _ _ 0 0 k (fun j hj => by simpa using hok j hj)
    (by simpa using hf) hk]
  simp

/-- Whatever the outcomes, the release loop issues `cuMemRelease` for the
chunk indices `0..m-1` in ascending order, for some `m` within the list. -/
lemma releaseChunks_shape (o : Oracle) (sizes : List Nat) :
    ∃ m, m ≤ sizes.length ∧
      (releaseChunks o sizes).1
        = (List.range m).map (fun j => Event.memRelease j (o.releaseOk j)) := by
  unfold releaseChunks
  obtain ⟨m, hm, heq⟩ := chunkCalls_shape o.releaseOk _ sizes 0 0
  refine ⟨m, hm, ?_⟩
  rw [heq]
  simp

/-- Every event of the create loop is a `cuMemCreate` call. -/
lemma createChunks_mem (o : Oracle) (sizes : List Nat) (e : Event)
    (he : e ∈ (createChunks o sizes).1) : ∃ j c b, e = .memCreate j c b := by
  obtain ⟨j, c, a, b, rfl⟩ := chunkCalls_mem _ _ _ _ _ _ he
  exact ⟨j, c, b, rfl⟩

/-- Every event of the map loop is a `cuMemMap` call. -/
lemma mapChunks_mem (o : Oracle) (dMem : Nat) (sizes : List Nat) (e : Event)
    (he : e ∈ (mapChunks o dMem sizes).1) :
    ∃ a s j b, e = .memMap a s j b := by
  obtain ⟨j, c, a, b, rfl⟩ := chunkCalls_mem _ _ _ _ _ _ he
  exact ⟨dMem + a, c, j, b, rfl⟩

/-- Every event of the unmap loop is a `cuMemUnmap` call. -/
lemma unmapChunks_mem (o : Oracle) (dMem : Nat) (sizes : List Nat) (e : Event)
    (he : e ∈ (unmapChunks o dMem sizes).1) :
    ∃ a s b, e = .memUnmap a s b := by
  obtain ⟨j, c, a, b, rfl⟩ := chunkCalls_mem _ _ _ _ _ _ he
  exact ⟨dMem + a, c, b, rfl⟩

/-- Every event of the release loop is a `cuMemRelease` call. -/
lemma releaseChunks_mem (o : Oracle) (sizes : List Nat) (e : Event)
    (he : e ∈ (releaseChunks o sizes).1) : ∃ j b, e = .memRelease j b := by
  obtain ⟨j, c, a, b, rfl⟩ := chunkCalls_mem _ _ _ _ _ _ he
  exact ⟨j, b, rfl⟩

/-- Every event of `ensure_context` is one of the three context calls. -/
lemma ensure_context_mem (o : Oracle) (device : Nat) (e : Event)
    (he : e ∈ ensure_context o device) :
    (∃ b, e = .ctxGetCurrent b) ∨ (∃ b, e = .ctxRetain device b)
      ∨ (∃ b, e = .ctxSetCurrent b) := by
  unfold ensure_context at he
  split_ifs at he <;>
    simp only [List.mem_cons, List.mem_singleton, List.not_mem_nil,
      or_false] at he
  · exact Or.inl ⟨false, he⟩
  · rcases he with rfl | rfl
    · exact Or.inl ⟨true, rfl⟩
    · exact Or.inr (Or.inl ⟨false, rfl⟩)
  · rcases he with rfl | rfl | rfl
    · exact Or.inl ⟨true, rfl⟩
    · exact Or.inr (Or.inl ⟨true, rfl⟩)
    · exact Or.inr (Or.inr ⟨_, rfl⟩)
  · exact Or.inl ⟨true, he⟩

/-- A predicate false on all three context calls filters `ensure_context`
to nothing. -/
lemma ensure_context_filter (o : Oracle) (device : Nat) (p : Event → Bool)
    (h1 : ∀ b, p (.ctxGetCurrent b) = false)
    (h2 : ∀ b, p (.ctxRetain device b) = false)
    (h3 : ∀ b, p (.ctxSetCurrent b) = false) :
    (ensure_context o device).filter p = [] :=
  List.filter_eq_nil_iff.mpr (fun e he => by
    rcases ensure_context_mem o device e he with ⟨b, rfl⟩ | ⟨b, rfl⟩ | ⟨b, rfl⟩ <;>
      simp [h1, h2, h3])

/-! ### Prefix sums of the chunk sizes -/

/-- One step of the `allocated_size` accumulator. -/
lemma take_sum_succ (sizes : List Nat) :
    ∀ i, i < sizes.length →
      (sizes.take (i + 1)).sum = (sizes.take i).sum + sizes.getD i 0 := by
  induction sizes with
  | nil => intro i hi; simp at hi
  | cons c rest ih =>
    intro i hi
    cases i with
    | zero => simp
    | succ i' =>
      have := ih i' (by simpa using hi)
      simp only [List.take_succ_cons, List.sum_cons, List.getD_cons_succ]
      omega

/-- Prefix sums are monotone. -/
lemma take_sum_mono (sizes : List Nat) {a b : Nat} (h : a ≤ b) :
    (sizes.take a).sum ≤ (sizes.take b).sum := by
  have hb : b = a + (b - a) := by omega
  rw [hb, List.take_add, List.sum_append]
  exact Nat.le_add_right _ _

/-- Every point below the total size lies in exactly one chunk's
prefix-sum interval. -/
lemma take_sum_coverage (sizes : List Nat) :
    ∀ x, x < sizes.sum →
      ∃ i, i < sizes.length ∧ (sizes.take i).sum ≤ x
        ∧ x < (sizes.take i).sum + sizes.getD i 0 := by
  induction sizes with
  | nil => intro x hx; simp at hx
  | cons c rest ih =>
    intro x hx
    by_cases hc : x < c
    · exact ⟨0, by simp, by simp, by simpa using hc⟩
    · obtain ⟨i, hi, h1, h2⟩ := ih (x - c) (by
        simp only [List.sum_cons] at hx; omega)
      refine ⟨i + 1, by simpa using hi, ?_, ?_⟩ <;>
        simp only [List.take_succ_cons, List.sum_cons, List.getD_cons_succ] <;>
        omega

/-! ### The claims -/

/-- C10: With zero chunks, both entry points skip every per-chunk driver
call: `unmap_and_release` performs no unmap and no release at all, while
`create_and_map` still issues the single `cuMemSetAccess` call over the full
`size` bytes at the virtual base. -/
theorem zero_chunks_behavior (o : Oracle) (device size dMem : Nat) :
    create_and_map o device size dMem []
      = ensure_context o device
        ++ [Event.setAffinity device (cpuMaskForGpu device)]
        ++ [Event.setAccess device dMem size o.accessOk]
    ∧ unmap_and_release o device size dMem [] = ensure_context o device := by
  constructor
  · unfold create_and_map set_cpu_affinity_for_gpu
    simp [createChunks, mapChunks, chunkCalls]
  · unfold unmap_and_release
    simp [unmapChunks, releaseChunks, chunkCalls]

/-- C8: The NUMA affinity binder partitions device ids statically: device
ids `0..3` bind the calling thread to CPUs `0..47`, device ids `4..7` to
CPUs `48..95`; in particular device `5` selects the upper core half and
device `2` the lower core half. -/
theorem numa_affinity_partition (device : Nat) (_hd : device < 8) :
    (device ≤ 3 → ∀ c, c ∈ cpuMaskForGpu device ↔ c < 48)
    ∧ (3 < device → ∀ c, c ∈ cpuMaskForGpu device ↔ (48 ≤ c ∧ c < 96))
    ∧ set_cpu_affinity_for_gpu device
        = [Event.setAffinity device (cpuMaskForGpu device)]
    ∧ cpuMaskForGpu 5 = (List.range 48).map (fun i => 48 + i)
    ∧ cpuMaskForGpu 2 = List.range 48 := by
  refine ⟨?_, ?_, rfl, ?_, ?_⟩
  · intro h c
    unfold cpuMaskForGpu
    rw [if_pos h]
    simp
  · intro h c
    unfold cpuMaskForGpu
    rw [if_neg (by omega)]
    simp only [List.mem_map, List.mem_range]
    constructor
    · rintro ⟨i, hi, rfl⟩; omega
    · intro hc; exact ⟨c - 48, by omega, by omega⟩
  · unfold cpuMaskForGpu; rw [if_neg (by omega)]
  · unfold cpuMaskForGpu; rw [if_pos (by omega)]

/-- Witness for `numa_affinity_partition` at device `5`. -/
theorem numa_affinity_partition_witness :
    (5 : Nat) < 8
    ∧ (((5 : Nat) ≤ 3 → ∀ c, c ∈ cpuMaskForGpu 5 ↔ c < 48)
       ∧ ((3 : Nat) < 5 → ∀ c, c ∈ cpuMaskForGpu 5 ↔ (48 ≤ c ∧ c < 96))
       ∧ set_cpu_affinity_for_gpu 5
           = [Event.setAffinity 5 (cpuMaskForGpu 5)]
       ∧ cpuMaskForGpu 5 = (List.range 48).map (fun i => 48 + i)
       ∧ cpuMaskForGpu 2 = List.range 48) :=
  ⟨by decide, numa_affinity_partition 5 (by decide)⟩

/-- C2: During a fully successful `create_and_map`, the `cuMemMap` calls are
issued in ascending chunk index order and chunk `i` is mapped exactly at
`dMem + sum(sizes[0..i))`; the mapped intervals are contiguous,
non-overlapping, and together cover `[dMem, dMem + sum sizes)`. -/
theorem mapping_contiguous (o : Oracle) (device size dMem : Nat)
    (sizes : List Nat)
    (hc : ∀ j, j < sizes.length → o.createOk j = true)
    (hm : ∀ j, j < sizes.length → o.mapOk j = true) :
    (create_and_map o device size dMem sizes).filter Event.isMap
      = (List.range sizes.length).map
          (fun j => Event.memMap (dMem + (sizes.take j).sum)
            (sizes.getD j 0) j true)
    ∧ (∀ i, i < sizes.length →
        dMem + (sizes.take i).sum + sizes.getD i 0
          = dMem + (sizes.take (i + 1)).sum)
    ∧ (∀ i j, i < j → j < sizes.length →
        dMem + (sizes.take i).sum + sizes.getD i 0
          ≤ dMem + (sizes.take j).sum)
    ∧ (∀ x, dMem ≤ x → x < dMem + sizes.sum →
        ∃ i, i < sizes.length ∧ dMem + (sizes.take i).sum ≤ x
          ∧ x < dMem + (sizes.take i).sum + sizes.getD i 0) := by
  refine ⟨?_, ?_, ?_, ?_⟩
  · have hcr : (createChunks o sizes).2 = true :=
      (createChunks_snd_iff o sizes).mpr hc
    have hmp : (mapChunks o dMem sizes).2 = true :=
      (mapChunks_snd_iff o dMem sizes).mpr hm
    unfold create_and_map
    rw [if_pos hcr, if_pos hmp]
    rw [List.filter_append, List.filter_append, List.filter_append,
      List.filter_append]
    rw [ensure_context_filter o device Event.isMap
      (fun _ => rfl) (fun _ => rfl) (fun _ => rfl)]
    rw [show (set_cpu_affinity_for_gpu device).filter Event.isMap = []
      from rfl]
    rw [List.filter_eq_nil_iff.mpr (fun e he => by
      obtain ⟨j, c, b, rfl⟩ := createChunks_mem o sizes e he
      simp [Event.isMap])]
    rw [List.filter_eq_self.mpr (fun e he => by
      obtain ⟨a, s, j, b, rfl⟩ := mapChunks_mem o dMem sizes e he
      simp [Event.isMap])]
    rw [show ([Event.setAccess device dMem size o.accessOk].filter
      Event.isMap) = [] from rfl]
    rw [mapChunks_all o dMem sizes hm]
    simp
  · intro i hi
    have := take_sum_succ sizes i hi
    omega
  · intro i j hij hj
    have h1 := take_sum_succ sizes i (Nat.lt_trans hij hj)
    have h2 := take_sum_mono sizes (show i + 1 ≤ j from hij)
    omega
  · intro x hx1 hx2
    obtain ⟨i, hi, h1, h2⟩ := take_sum_coverage sizes (x - dMem) (by omega)
    exact ⟨i, hi, by omega, by omega⟩

/-- Witness for `mapping_contiguous`: all driver calls succeed, two chunks
of sizes 4 and 6 at base 100. -/
theorem mapping_contiguous_witness :
    (∀ j, j < ([4, 6] : List Nat).length → allOk.createOk j = true)
    ∧ (∀ j, j < ([4, 6] : List Nat).length → allOk.mapOk j = true)
    ∧ ((create_and_map allOk 0 10 100 [4, 6]).filter Event.isMap
        = (List.range ([4, 6] : List Nat).length).map
            (fun j => Event.memMap (100 + (([4, 6] : List Nat).take j).sum)
              (([4, 6] : List Nat).getD j 0) j true)
       ∧ (∀ i, i < ([4, 6] : List Nat).length →
           100 + (([4, 6] : List Nat).take i).sum
               + ([4, 6] : List Nat).getD i 0
             = 100 + (([4, 6] : List Nat).take (i + 1)).sum)
       ∧ (∀ i j, i < j → j < ([4, 6] : List Nat).length →
           100 + (([4, 6] : List Nat).take i).sum
               + ([4, 6] : List Nat).getD i 0
             ≤ 100 + (([4, 6] : List Nat).take j).sum)
       ∧ (∀ x, 100 ≤ x → x < 100 + ([4, 6] : List Nat).sum →
           ∃ i, i < ([4, 6] : List Nat).length
             ∧ 100 + (([4, 6] : List Nat).take i).sum ≤ x
             ∧ x < 100 + (([4, 6] : List Nat).take i).sum
                 + ([4, 6] : List Nat).getD i 0)) :=
  ⟨fun _ _ => rfl, fun _ _ => rfl,
    mapping_contiguous allOk 0 10 100 [4, 6]
      (fun _ _ => rfl) (fun _ _ => rfl)⟩

/-- Filtering a mapped range by a predicate false on every image. -/
lemma filter_map_range_nil (p : Event → Bool) (f : Nat → Event) (n : Nat)
    (hp : ∀ j, p (f j) = false) :
    (((List.range n).map f).filter p) = [] :=
  List.filter_eq_nil_iff.mpr (fun e he => by
    obtain ⟨j, _, rfl⟩ := List.mem_map.mp he
    simp [hp])

/-- C4: If `cuMemCreate` fails at chunk `k` during `create_and_map`, the
routine returns immediately: the handles of chunks `0..k-1` were created and
are neither released nor rolled back, no handle with index `≥ k` is created,
no chunk is mapped, and access is never granted. -/
theorem create_failure_no_rollback (o : Oracle) (device size dMem : Nat)
    (sizes : List Nat) (k : Nat) (hk : k < sizes.length)
    (hok : ∀ j, j < k → o.createOk j = true) (hf : o.createOk k = false) :
    create_and_map o device size dMem sizes
      = ensure_context o device
        ++ [Event.setAffinity device (cpuMaskForGpu device)]
        ++ ((List.range k).map
              (fun j => Event.memCreate j (sizes.getD j 0) true)
            ++ [Event.memCreate k (sizes.getD k 0) false])
    ∧ (∀ i c, Event.memCreate i c true
          ∈ create_and_map o device size dMem sizes
        ↔ (i < k ∧ c = sizes.getD i 0))
    ∧ (create_and_map o device size dMem sizes).filter Event.isMap = []
    ∧ (create_and_map o device size dMem sizes).filter Event.isAccess = []
    ∧ (create_and_map o device size dMem sizes).filter Event.isRelease
        = [] := by
  have hfail := createChunks_fail o sizes k hok hf hk
  have hcr2 : (createChunks o sizes).2 = false := by rw [hfail]
  have htr : create_and_map o device size dMem sizes
      = ensure_context o device
        ++ [Event.setAffinity device (cpuMaskForGpu device)]
        ++ ((List.range k).map
              (fun j => Event.memCreate j (sizes.getD j 0) true)
            ++ [Event.memCreate k (sizes.getD k 0) false]) := by
    unfold create_and_map
    rw [if_neg (by simp [hcr2])]
    rw [show (createChunks o sizes).1
        = (List.range k).map
            (fun j => Event.memCreate j (sizes.getD j 0) true)
          ++ [Event.memCreate k (sizes.getD k 0) false] from by rw [hfail]]
    rfl
  refine ⟨htr, ?_, ?_, ?_, ?_⟩
  · intro i c
    constructor
    · intro hmem
      rw [htr] at hmem
      rcases List.mem_append.mp hmem with h1 | h2
      · rcases List.mem_append.mp h1 with h0 | ha
        · rcases ensure_context_mem o device _ h0 with
            ⟨b, hb⟩ | ⟨b, hb⟩ | ⟨b, hb⟩ <;> simp at hb
        · simp at ha
      · rcases List.mem_append.mp h2 with hcm | hl
        · simp only [List.mem_map, List.mem_range] at hcm
          obtain ⟨j, hj, hje⟩ := hcm
          rw [Event.memCreate.injEq] at hje
          obtain ⟨rfl, rfl, -⟩ := hje
          exact ⟨hj, rfl⟩
        · simp at hl
    · rintro ⟨hik, rfl⟩
      rw [htr]
      refine List.mem_append.mpr (Or.inr (List.mem_append.mpr (Or.inl ?_)))
      exact List.mem_map.mpr ⟨i, List.mem_range.mpr hik, rfl⟩
  all_goals
    rw [htr, List.filter_append, List.filter_append, List.filter_append]
  · rw [ensure_context_filter o device Event.isMap
      (fun _ => rfl) (fun _ => rfl) (fun _ => rfl),
      filter_map_range_nil Event.isMap
        (fun j => Event.memCreate j (sizes.getD j 0) true) k (fun _ => rfl)]
    rfl
  · rw [ensure_context_filter o device Event.isAccess
      (fun _ => rfl) (fun _ => rfl) (fun _ => rfl),
      filter_map_range_nil Event.isAccess
        (fun j => Event.memCreate j (sizes.getD j 0) true) k (fun _ => rfl)]
    rfl
  · rw [ensure_context_filter o device Event.isRelease
      (fun _ => rfl) (fun _ => rfl) (fun _ => rfl),
      filter_map_range_nil Event.isRelease
        (fun j => Event.memCreate j (sizes.getD j 0) true) k (fun _ => rfl)]
    rfl

/-- Witness for `create_failure_no_rollback`: five chunks, `cuMemCreate`
fails at index 2 (the spec's failure scenario). -/
theorem create_failure_no_rollback_witness :
    (2 : Nat) < ([4, 4, 4, 4, 4] : List Nat).length
    ∧ (∀ j, j < 2 → (fun i => decide (i < 2)) j = true)
    ∧ (fun i => decide (i < 2)) 2 = false
    ∧ (create_and_map
          ⟨true, false, true, true, fun i => decide (i < 2), fun _ => true,
            true, fun _ => true, fun _ => true⟩ 0 20 100 [4, 4, 4, 4, 4]
        = ensure_context
            ⟨true, false, true, true, fun i => decide (i < 2), fun _ => true,
              true, fun _ => true, fun _ => true⟩ 0
          ++ [Event.setAffinity 0 (cpuMaskForGpu 0)]
          ++ ((List.range 2).map
                (fun j => Event.memCreate j
                  (([4, 4, 4, 4, 4] : List Nat).getD j 0) true)
              ++ [Event.memCreate 2
                   (([4, 4, 4, 4, 4] : List Nat).getD 2 0) false])) := by
  refine ⟨by decide, ?_, by decide, ?_⟩
  · intro j hj
    simp only [decide_eq_true_eq]
    omega
  · exact (create_failure_no_rollback
      ⟨true, false, true, true, fun i => decide (i < 2), fun _ => true,
        true, fun _ => true, fun _ => true⟩ 0 20 100 [4, 4, 4, 4, 4] 2
      (by decide)
      (fun j hj => by simp only [decide_eq_true_eq]; omega)
      (by decide)).1

/-- C6: If `cuMemMap` fails at chunk `k` during `create_and_map` (after all
handles were created), the routine returns immediately: chunks `0..k-1`
remain mapped, chunks `k..n-1` are not mapped, every handle was created and
none is released, and access is never granted. -/
theorem map_failure_no_rollback (o : Oracle) (device size dMem : Nat)
    (sizes : List Nat) (k : Nat) (hk : k < sizes.length)
    (hc : ∀ i, i < sizes.length → o.createOk i = true)
    (hok : ∀ i, i < k → o.mapOk i = true) (hf : o.mapOk k = false) :
    create_and_map o device size dMem sizes
      = ensure_context o device
        ++ [Event.setAffinity device (cpuMaskForGpu device)]
        ++ ((List.range sizes.length).map
              (fun i => Event.memCreate i (sizes.getD i 0) true)
            ++ ((List.range k).map
                  (fun i => Event.memMap (dMem + (sizes.take i).sum)
                    (sizes.getD i 0) i true)
                ++ [Event.memMap (dMem + (sizes.take k).sum)
                     (sizes.getD k 0) k false]))
    ∧ (∀ a s i, Event.memMap a s i true
          ∈ create_and_map o device size dMem sizes
        ↔ (i < k ∧ a = dMem + (sizes.take i).sum ∧ s = sizes.getD i 0))
    ∧ (∀ i, i < sizes.length →
        Event.memCreate i (sizes.getD i 0) true
          ∈ create_and_map o device size dMem sizes)
    ∧ (create_and_map o device size dMem sizes).filter Event.isAccess = []
    ∧ (create_and_map o device size dMem sizes).filter Event.isUnmap = []
    ∧ (create_and_map o device size dMem sizes).filter Event.isRelease
        = [] := by
  have hcr : (createChunks o sizes).2 = true :=
    (createChunks_snd_iff o sizes).mpr hc
  have hfail := mapChunks_fail o dMem sizes k hok hf hk
  have hmp2 : (mapChunks o dMem sizes).2 = false := by rw [hfail]
  have htr : create_and_map o device size dMem sizes
      = ensure_context o device
        ++ [Event.setAffinity device (cpuMaskForGpu device)]
        ++ ((List.range sizes.length).map
              (fun i => Event.memCreate i (sizes.getD i 0) true)
            ++ ((List.range k).map
                  (fun i => Event.memMap (dMem + (sizes.take i).sum)
                    (sizes.getD i 0) i true)
                ++ [Event.memMap (dMem + (sizes.take k).sum)
                     (sizes.getD k 0) k false])) := by
    unfold create_and_map
    rw [if_pos hcr, if_neg (by simp [hmp2])]
    rw [createChunks_all o sizes hc]
    rw [show (mapChunks o dMem sizes).1
        = (List.range k).map
            (fun i => Event.memMap (dMem + (sizes.take i).sum)
              (sizes.getD i 0) i true)
          ++ [Event.memMap (dMem + (sizes.take k).sum)
               (sizes.getD k 0) k false] from by rw [hfail]]
    rfl
  refine ⟨htr, ?_, ?_, ?_, ?_, ?_⟩
  · intro a s i
    constructor
    · intro hmem
      rw [htr] at hmem
      rcases List.mem_append.mp hmem with h1 | h2
      · rcases List.mem_append.mp h1 with h0 | ha
        · rcases ensure_context_mem o device _ h0 with
            ⟨b, hb⟩ | ⟨b, hb⟩ | ⟨b, hb⟩ <;> simp at hb
        · simp at ha
      · rcases List.mem_append.mp h2 with hcm | hml
        · obtain ⟨j, _, hje⟩ := List.mem_map.mp hcm
          simp at hje
        · rcases List.mem_append.mp hml with hmm | hl
          · obtain ⟨j, hj, hje⟩ := List.mem_map.mp hmm
            rw [Event.memMap.injEq] at hje
            obtain ⟨rfl, rfl, rfl, -⟩ := hje
            exact ⟨List.mem_range.mp hj, rfl, rfl⟩
          · simp at hl
    · rintro ⟨hik, rfl, rfl⟩
      rw [htr]
      refine List.mem_append.mpr (Or.inr (List.mem_append.mpr (Or.inr
        (List.mem_append.mpr (Or.inl ?_)))))
      exact List.mem_map.mpr ⟨i, List.mem_range.mpr hik, rfl⟩
  · intro i hi
    rw [htr]
    refine List.mem_append.mpr (Or.inr (List.mem_append.mpr (Or.inl ?_)))
    exact List.mem_map.mpr ⟨i, List.mem_range.mpr hi, rfl⟩
  all_goals
    rw [htr, List.filter_append, List.filter_append, List.filter_append,
      List.filter_append]
  · rw [ensure_context_filter o device Event.isAccess
      (fun _ => rfl) (fun _ => rfl) (fun _ => rfl),
      filter_map_range_nil Event.isAccess
        (fun i => Event.memCreate i (sizes.getD i 0) true) sizes.length
        (fun _ => rfl),
      filter_map_range_nil Event.isAccess
        (fun i => Event.memMap (dMem + (sizes.take i).sum)
          (sizes.getD i 0) i true) k (fun _ => rfl)]
    rfl
  · rw [ensure_context_filter o device Event.isUnmap
      (fun _ => rfl) (fun _ => rfl) (fun _ => rfl),
      filter_map_range_nil Event.isUnmap
        (fun i => Event.memCreate i (sizes.getD i 0) true) sizes.length
        (fun _ => rfl),
      filter_map_range_nil Event.isUnmap
        (fun i => Event.memMap (dMem + (sizes.take i).sum)
          (sizes.getD i 0) i true) k (fun _ => rfl)]
    rfl
  · rw [ensure_context_filter o device Event.isRelease
      (fun _ => rfl) (fun _ => rfl) (fun _ => rfl),
      filter_map_range_nil Event.isRelease
        (fun i => Event.memCreate i (sizes.getD i 0) true) sizes.length
        (fun _ => rfl),
      filter_map_range_nil Event.isRelease
        (fun i => Event.memMap (dMem + (sizes.take i).sum)
          (sizes.getD i 0) i true) k (fun _ => rfl)]
    rfl

/-- Witness for `map_failure_no_rollback`: two chunks, `cuMemMap` fails at
index 1. -/
theorem map_failure_no_rollback_witness :
    (1 : Nat) < ([4, 6] : List Nat).length
    ∧ (∀ i, i < ([4, 6] : List Nat).length →
        (⟨true, false, true, true, fun _ => true, fun i => decide (i < 1),
          true, fun _ => true, fun _ => true⟩ : Oracle).createOk i = true)
    ∧ (∀ i, i < 1 →
        (⟨true, false, true, true, fun _ => true, fun i => decide (i < 1),
          true, fun _ => true, fun _ => true⟩ : Oracle).mapOk i = true)
    ∧ (⟨true, false, true, true, fun _ => true, fun i => decide (i < 1),
        true, fun _ => true, fun _ => true⟩ : Oracle).mapOk 1 = false
    ∧ (create_and_map
          ⟨true, false, true, true, fun _ => true, fun i => decide (i < 1),
            true, fun _ => true, fun _ => true⟩ 0 10 100 [4, 6]
        = ensure_context
            ⟨true, false, true, true, fun _ => true, fun i => decide (i < 1),
              true, fun _ => true, fun _ => true⟩ 0
          ++ [Event.setAffinity 0 (cpuMaskForGpu 0)]
          ++ ((List.range ([4, 6] : List Nat).length).map
                (fun i => Event.memCreate i
                  (([4, 6] : List Nat).getD i 0) true)
              ++ ((List.range 1).map
                    (fun i => Event.memMap
                      (100 + (([4, 6] : List Nat).take i).sum)
                      (([4, 6] : List Nat).getD i 0) i true)
                  ++ [Event.memMap
                       (100 + (([4, 6] : List Nat).take 1).sum)
                       (([4, 6] : List Nat).getD 1 0) 1 false]))) := by
  refine ⟨by decide, fun i _ => rfl, ?_, by decide, ?_⟩
  · intro i hi
    simp only [decide_eq_true_eq]
    omega
  · exact (map_failure_no_rollback
      ⟨true, false, true, true, fun _ => true, fun i => decide (i < 1),
        true, fun _ => true, fun _ => true⟩ 0 10 100 [4, 6] 1
      (by decide) (fun i _ => rfl)
      (fun i hi => by simp only [decide_eq_true_eq]; omega)
      (by decide)).1

/-- C9: Access is granted by a single `cuMemSetAccess` call covering the
full `size` bytes, issued only after all chunks are mapped; if that call
fails, `create_and_map` returns with every chunk still mapped and performs
no unmap, release, or other rollback call. -/
theorem access_failure_terminal (o : Oracle) (device size dMem : Nat)
    (sizes : List Nat)
    (hc : ∀ i, i < sizes.length → o.createOk i = true)
    (hm : ∀ i, i < sizes.length → o.mapOk i = true)
    (hacc : o.accessOk = false) :
    create_and_map o device size dMem sizes
      = ensure_context o device
        ++ [Event.setAffinity device (cpuMaskForGpu device)]
        ++ ((List.range sizes.length).map
              (fun i => Event.memCreate i (sizes.getD i 0) true)
            ++ ((List.range sizes.length).map
                  (fun i => Event.memMap (dMem + (sizes.take i).sum)
                    (sizes.getD i 0) i true)
                ++ [Event.setAccess device dMem size false]))
    ∧ (create_and_map o device size dMem sizes).filter Event.isAccess
        = [Event.setAccess device dMem size false]
    ∧ (create_and_map o device size dMem sizes).filter Event.isUnmap = []
    ∧ (create_and_map o device size dMem sizes).filter Event.isRelease
        = [] := by
  have hcr : (createChunks o sizes).2 = true :=
    (createChunks_snd_iff o sizes).mpr hc
  have hmp : (mapChunks o dMem sizes).2 = true :=
    (mapChunks_snd_iff o dMem sizes).mpr hm
  have htr : create_and_map o device size dMem sizes
      = ensure_context o device
        ++ [Event.setAffinity device (cpuMaskForGpu device)]
        ++ ((List.range sizes.length).map
              (fun i => Event.memCreate i (sizes.getD i 0) true)
            ++ ((List.range sizes.length).map
                  (fun i => Event.memMap (dMem + (sizes.take i).sum)
                    (sizes.getD i 0) i true)
                ++ [Event.setAccess device dMem size false])) := by
    unfold create_and_map
    rw [if_pos hcr, if_pos hmp, createChunks_all o sizes hc,
      mapChunks_all o dMem sizes hm, hacc]
    rfl
  refine ⟨htr, ?_, ?_, ?_⟩
  all_goals
    rw [htr, List.filter_append, List.filter_append, List.filter_append,
      List.filter_append]
  · rw [ensure_context_filter o device Event.isAccess
      (fun _ => rfl) (fun _ => rfl) (fun _ => rfl),
      filter_map_range_nil Event.isAccess
        (fun i => Event.memCreate i (sizes.getD i 0) true) sizes.length
        (fun _ => rfl),
      filter_map_range_nil Event.isAccess
        (fun i => Event.memMap (dMem + (sizes.take i).sum)
          (sizes.getD i 0) i true) sizes.length (fun _ => rfl)]
    rfl
  · rw [ensure_context_filter o device Event.isUnmap
      (fun _ => rfl) (fun _ => rfl) (fun _ => rfl),
      filter_map_range_nil Event.isUnmap
        (fun i => Event.memCreate i (sizes.getD i 0) true) sizes.length
        (fun _ => rfl),
      filter_map_range_nil Event.isUnmap
        (fun i => Event.memMap (dMem + (sizes.take i).sum)
          (sizes.getD i 0) i true) sizes.length (fun _ => rfl)]
    rfl
  · rw [ensure_context_filter o device Event.isRelease
      (fun _ => rfl) (fun _ => rfl) (fun _ => rfl),
      filter_map_range_nil Event.isRelease
        (fun i => Event.memCreate i (sizes.getD i 0) true) sizes.length
        (fun _ => rfl),
      filter_map_range_nil Event.isRelease
        (fun i => Event.memMap (dMem + (sizes.take i).sum)
          (sizes.getD i 0) i true) sizes.length (fun _ => rfl)]
    rfl

/-- Witness for `access_failure_terminal`: two chunks, `cuMemSetAccess`
fails. -/
theorem access_failure_terminal_witness :
    (∀ i, i < ([4, 6] : List Nat).length →
        (⟨true, false, true, true, fun _ => true, fun _ => true, false,
          fun _ => true, fun _ => true⟩ : Oracle).createOk i = true)
    ∧ (∀ i, i < ([4, 6] : List Nat).length →
        (⟨true, false, true, true, fun _ => true, fun _ => true, false,
          fun _ => true, fun _ => true⟩ : Oracle).mapOk i = true)
    ∧ (⟨true, false, true, true, fun _ => true, fun _ => true, false,
        fun _ => true, fun _ => true⟩ : Oracle).accessOk = false
    ∧ (create_and_map
          ⟨true, false, true, true, fun _ => true, fun _ => true, false,
            fun _ => true, fun _ => true⟩ 0 10 100 [4, 6]
        = ensure_context
            ⟨true, false, true, true, fun _ => true, fun _ => true, false,
              fun _ => true, fun _ => true⟩ 0
          ++ [Event.setAffinity 0 (cpuMaskForGpu 0)]
          ++ ((List.range ([4, 6] : List Nat).length).map
                (fun i => Event.memCreate i
                  (([4, 6] : List Nat).getD i 0) true)
              ++ ((List.range ([4, 6] : List Nat).length).map
                    (fun i => Event.memMap
                      (100 + (([4, 6] : List Nat).take i).sum)
                      (([4, 6] : List Nat).getD i 0) i true)
                  ++ [Event.setAccess 0 100 10 false]))) :=
  ⟨fun _ _ => rfl, fun _ _ => rfl, rfl,
    (access_failure_terminal
      ⟨true, false, true, true, fun _ => true, fun _ => true, false,
        fun _ => true, fun _ => true⟩ 0 10 100 [4, 6]
      (fun _ _ => rfl) (fun _ _ => rfl) rfl).1⟩

/-- C3: In `unmap_and_release`, if any `cuMemRelease` call is issued, then
every chunk was first unmapped — in ascending index order at the prefix-sum
offsets used for mapping — the whole trace is the context calls, then all
unmaps, then the releases, and the releases proceed in ascending index
order from chunk `0`. -/
theorem unmap_before_release (o : Oracle) (device size dMem : Nat)
    (sizes : List Nat)
    (hrel : ∃ j b, Event.memRelease j b
      ∈ unmap_and_release o device size dMem sizes) :
    (∀ i, i < sizes.length → o.unmapOk i = true)
    ∧ (unmapChunks o dMem sizes).1
        = (List.range sizes.length).map
            (fun i => Event.memUnmap (dMem + (sizes.take i).sum)
              (sizes.getD i 0) true)
    ∧ unmap_and_release o device size dMem sizes
        = ensure_context o device ++ (unmapChunks o dMem sizes).1
            ++ (releaseChunks o sizes).1
    ∧ ∃ m, m ≤ sizes.length ∧ (releaseChunks o sizes).1
        = (List.range m).map
            (fun k => Event.memRelease k (o.releaseOk k)) := by
  obtain ⟨j, b, hmem⟩ := hrel
  by_cases hum : (unmapChunks o dMem sizes).2 = true
  · have hall := (unmapChunks_snd_iff o dMem sizes).mp hum
    refine ⟨hall, unmapChunks_all o dMem sizes hall, ?_,
      releaseChunks_shape o sizes⟩
    unfold unmap_and_release
    rw [if_pos hum, List.append_assoc]
  · exfalso
    unfold unmap_and_release at hmem
    rw [if_neg hum] at hmem
    rcases List.mem_append.mp hmem with h0 | h1
    · rcases ensure_context_mem o device _ h0 with
        ⟨c, hb⟩ | ⟨c, hb⟩ | ⟨c, hb⟩ <;> simp at hb
    · obtain ⟨a, s, c, hb⟩ := unmapChunks_mem o dMem sizes _ h1
      simp at hb

/-- Witness for `unmap_before_release`: all calls succeed on two chunks. -/
theorem unmap_before_release_witness :
    (∃ j b, Event.memRelease j b ∈ unmap_and_release allOk 0 10 100 [4, 6])
    ∧ ((∀ i, i < ([4, 6] : List Nat).length → allOk.unmapOk i = true)
       ∧ (unmapChunks allOk 100 [4, 6]).1
           = (List.range ([4, 6] : List Nat).length).map
               (fun i => Event.memUnmap (100 + (([4, 6] : List Nat).take i).sum)
                 (([4, 6] : List Nat).getD i 0) true)
       ∧ unmap_and_release allOk 0 10 100 [4, 6]
           = ensure_context allOk 0 ++ (unmapChunks allOk 100 [4, 6]).1
               ++ (releaseChunks allOk [4, 6]).1
       ∧ ∃ m, m ≤ ([4, 6] : List Nat).length
           ∧ (releaseChunks allOk [4, 6]).1
               = (List.range m).map
                   (fun k => Event.memRelease k (allOk.releaseOk k))) :=
  ⟨⟨0, true, by decide⟩,
    unmap_before_release allOk 0 10 100 [4, 6] ⟨0, true, by decide⟩⟩

/-- C5 counterexample: with an oracle on which `cuCtxGetCurrent` fails but
every other call succeeds, `create_and_map` still creates the chunk handle,
maps it, and grants access — so a context failure does **not** halt
`create_and_map`. -/
theorem context_failure_counterexample :
    Event.ctxGetCurrent false
        ∈ create_and_map
            ⟨false, false, true, true, fun _ => true, fun _ => true, true,
              fun _ => true, fun _ => true⟩ 0 4 100 [4]
    ∧ Event.memCreate 0 4 true
        ∈ create_and_map
            ⟨false, false, true, true, fun _ => true, fun _ => true, true,
              fun _ => true, fun _ => true⟩ 0 4 100 [4]
    ∧ Event.memMap 100 4 0 true
        ∈ create_and_map
            ⟨false, false, true, true, fun _ => true, fun _ => true, true,
              fun _ => true, fun _ => true⟩ 0 4 100 [4]
    ∧ Event.setAccess 0 100 4 true
        ∈ create_and_map
            ⟨false, false, true, true, fun _ => true, fun _ => true, true,
              fun _ => true, fun _ => true⟩ 0 4 100 [4] := by
  decide

/-- C5 amended: a failure inside `ensure_context` halts only
`ensure_context` itself; `create_and_map` proceeds identically regardless
of the context-call outcomes.  Formally, for two oracles that agree on the
chunk-creation, mapping and access outcomes, `create_and_map` issues the
same trace after the context calls. -/
theorem context_failure_nonfatal (o o' : Oracle) (device size dMem : Nat)
    (sizes : List Nat) (hc : o.createOk = o'.createOk)
    (hm : o.mapOk = o'.mapOk) (ha : o.accessOk = o'.accessOk) :
    ∃ tail,
      create_and_map o device size dMem sizes
        = ensure_context o device ++ tail
      ∧ create_and_map o' device size dMem sizes
        = ensure_context o' device ++ tail := by
  refine ⟨set_cpu_affinity_for_gpu device
    ++ (if (createChunks o sizes).2 then
          (createChunks o sizes).1
            ++ (if (mapChunks o dMem sizes).2 then
                  (mapChunks o dMem sizes).1
                    ++ [.setAccess device dMem size o.accessOk]
                else (mapChunks o dMem sizes).1)
        else (createChunks o sizes).1), ?_, ?_⟩
  · unfold create_and_map
    rw [List.append_assoc]
  · have hcr : createChunks o' sizes = createChunks o sizes := by
      unfold createChunks; rw [← hc]
    have hmp : mapChunks o' dMem sizes = mapChunks o dMem sizes := by
      unfold mapChunks; rw [← hm]
    unfold create_and_map
    rw [List.append_assoc, hcr, hmp, ← ha]

/-- Witness for `context_failure_nonfatal`: the context-failing oracle of
the counterexample against the all-success oracle. -/
theorem context_failure_nonfatal_witness :
    ((⟨false, false, true, true, fun _ => true, fun _ => true, true,
        fun _ => true, fun _ => true⟩ : Oracle).createOk = allOk.createOk)
    ∧ ((⟨false, false, true, true, fun _ => true, fun _ => true, true,
        fun _ => true, fun _ => true⟩ : Oracle).mapOk = allOk.mapOk)
    ∧ ((⟨false, false, true, true, fun _ => true, fun _ => true, true,
        fun _ => true, fun _ => true⟩ : Oracle).accessOk = allOk.accessOk)
    ∧ ∃ tail,
        create_and_map
            ⟨false, false, true, true, fun _ => true, fun _ => true, true,
              fun _ => true, fun _ => true⟩ 0 4 100 [4]
          = ensure_context
              ⟨false, false, true, true, fun _ => true, fun _ => true, true,
                fun _ => true, fun _ => true⟩ 0 ++ tail
        ∧ create_and_map allOk 0 4 100 [4]
          = ensure_context allOk 0 ++ tail :=
  ⟨rfl, rfl, rfl,
    context_failure_nonfatal
      ⟨false, false, true, true, fun _ => true, fun _ => true, true,
        fun _ => true, fun _ => true⟩ allOk 0 4 100 [4] rfl rfl rfl⟩

end Cumem
